import Mathlib

/-!
Safex: denylist-gated file-open authorisation.

A shallow embedding of `src/safex_lsm.c` and `src/include/safex.h`.

* C `char` values are `Byte = Fin 256`.
* The module's globals (`denylist`, `denylist_loaded`, `lsm_active`,
  `load_attempts`) form the record `State`; functions that write globals
  return the new state.
* The kernel services used by the code (file open / one-byte reads, `kmalloc`,
  the page allocator, the dentry renderer) are inputs: `LoadEnv` and `HookEnv`.
* `printk` and the mutex are not modelled (sequential semantics, no log).
-/

namespace Safex

/-! ## Constants (`src/include/safex.h`) -/

/-- A C `char`. -/
abbrev Byte := Fin 256

/-- The constant `#define MAX_PATH_LEN 512`. -/
def MAX_PATH_LEN : Nat := 512

/-- The constant `#define MAX_LOAD_ATTEMPTS 12`. -/
def MAX_LOAD_ATTEMPTS : Int := 12

/-- The kernel's `EACCES` errno value (13). -/
def EACCES : Int := 13

/-- The newline character. -/
def NL : Byte := 10

/-- An errno carried by an `ERR_PTR`: the value `e.val + 1`, so that it lies in
`1 .. MAX_ERRNO = 4095`, which is exactly the range `IS_ERR` recognises. -/
abbrev Errno := Fin 4095

/-- The value `PTR_ERR` of an error pointer: the negated errno. -/
def PTR_ERR (e : Errno) : Int := -((e.val : Int) + 1)

/-! ## Data model -/

/-- The type `struct deny_entry`: the `path` field is the content of `char path[MAX_PATH_LEN]`;
the `list` field is represented by the position in the `denylist`. -/
structure deny_entry where
  path : List Byte
deriving DecidableEq, Repr

/-- The module's global variables. -/
structure State where
  denylist : List deny_entry
  denylist_loaded : Bool
  lsm_active : Bool
  load_attempts : Int
deriving DecidableEq, Repr

/-- The static initialisers: empty list, both flags false, counter zero. -/
def init_state : State :=
  { denylist := [], denylist_loaded := false, lsm_active := false, load_attempts := 0 }

/-! ## C strings -/

/-- The string a `char *` denotes: the bytes before the first NUL. -/
def cstr (m : List Byte) : List Byte := m.takeWhile (fun c => c ≠ 0)

/-- The kernel's `strcmp`: walk both strings, return -1 / 1 at the first
difference, 0 when a common NUL is reached.  A list models the memory from the
pointer on; the end of the list reads as NUL. -/
def strcmp : List Byte → List Byte → Int
  | [], [] => 0
  | [], c2 :: _ => if c2 = 0 then 0 else -1
  | c1 :: _, [] => if c1 = 0 then 0 else 1
  | c1 :: cs, c2 :: ct =>
    if c1 ≠ c2 then (if c1 < c2 then -1 else 1)
    else if c1 = 0 then 0
    else strcmp cs ct

/-- The kernel's `strncpy(dest, src, count)` as the resulting content of
`dest[0 .. count)`: bytes are copied from `src[i]` on; once a NUL has been
copied the source pointer stops advancing, so the rest is NUL. -/
def strncpy (src : Nat → Byte) : Nat → Nat → List Byte
  | _, 0 => []
  | i, n + 1 =>
    if src i = 0 then List.replicate (n + 1) 0
    else src i :: strncpy src (i + 1) n

/-! ## Deny logic (`is_path_denied`) -/

/-- The `list_for_each_entry` loop of `is_path_denied`. -/
def denylist_scan (path : List Byte) : List deny_entry → Bool
  | [] => false
  | entry :: rest =>
    if strcmp entry.path path = 0 then true else denylist_scan path rest

/-- The function `bool is_path_denied(const char *path)`. -/
def is_path_denied (s : State) (path : List Byte) : Bool :=
  if !s.lsm_active then false
  else denylist_scan path s.denylist

/-! ## Loading (`load_denylist`) -/

/-- The result of `filp_open` followed by the one-byte `kernel_read` calls:
`data` are the bytes delivered by the reads that return 1, `last_ret` is the
return value of the first read that does not (0 at end of file, negative on a
read error). -/
structure OpenFile where
  data : List Byte
  last_ret : Int

/-- What one call of `load_denylist` meets: the result of `filp_open`, the
outcome of the k-th `kmalloc` (k = 0, 1, ...), and the initial content of the
uninitialised stack buffer `buf`. -/
structure LoadEnv where
  filp_open : Except Errno OpenFile
  kmalloc_ok : Nat → Bool
  stack : Nat → Byte

/-- Local variables of the read loop, with the list being built and the number
of `kmalloc` calls made so far. -/
structure LoopState where
  buf : Nat → Byte
  len : Nat
  denylist : List deny_entry
  allocs : Nat

/-- The store `buf[i] = b`. -/
def poke (buf : Nat → Byte) (i : Nat) (b : Byte) : Nat → Byte :=
  fun j => if j = i then b else buf j

/-- One iteration of the `while` loop of `load_denylist`, for a read that
returned 1 and delivered byte `b` into `buf[len]`. -/
def load_iter (kmalloc_ok : Nat → Bool) (st : LoopState) (b : Byte) : LoopState :=
  let buf1 := poke st.buf st.len b
  if buf1 st.len = NL ∨ st.len = MAX_PATH_LEN - 1 then
    let buf2 := poke buf1 st.len 0
    if st.len > 0 then
      if kmalloc_ok st.allocs then
        let entry : deny_entry := { path := strncpy buf2 0 MAX_PATH_LEN }
        { buf := buf2, len := 0, denylist := st.denylist ++ [entry], allocs := st.allocs + 1 }
      else
        -- `continue`: the reset of `len` is skipped
        { buf := buf2, len := st.len, denylist := st.denylist, allocs := st.allocs + 1 }
    else
      { buf := buf2, len := 0, denylist := st.denylist, allocs := st.allocs }
  else
    { buf := buf1, len := st.len + 1, denylist := st.denylist, allocs := st.allocs }

/-- The `while` loop of `load_denylist` over the bytes the reads deliver. -/
def load_loop (kmalloc_ok : Nat → Bool) : LoopState → List Byte → LoopState
  | st, [] => st
  | st, b :: rest => load_loop kmalloc_ok (load_iter kmalloc_ok st b) rest

/-- The function `int load_denylist(void)`: the return value and the new `denylist`. -/
def load_denylist (env : LoadEnv) (denylist : List deny_entry) : Int × List deny_entry :=
  match env.filp_open with
  | .error e => (PTR_ERR e, denylist)
  | .ok file =>
    let st := load_loop env.kmalloc_ok
      { buf := env.stack, len := 0, denylist := denylist, allocs := 0 } file.data
    (0, st.denylist)

/-- The loop of `void cleanup_denylist(void)`: every entry is unlinked and freed. -/
def cleanup_loop : List deny_entry → List deny_entry
  | [] => []
  | _ :: rest => cleanup_loop rest

/-- The function `cleanup_denylist` on the module state. -/
def cleanup_denylist (s : State) : State :=
  { s with denylist := cleanup_loop s.denylist }

/-! ## Activation (`activate_lsm_work`) -/

/-- Observable effects of one run of the deferred work: a call of
`load_denylist`, or `schedule_delayed_work(&activation_work, secs * HZ)`. -/
inductive Event where
  | load_call
  | schedule_retry (secs : Nat)
deriving DecidableEq, Repr

/-- The function `static void activate_lsm_work(struct work_struct *work)`. -/
def activate_lsm_work (s : State) (env : LoadEnv) : State × List Event :=
  if !s.denylist_loaded && decide (s.load_attempts < MAX_LOAD_ATTEMPTS) then
    let s1 := { s with load_attempts := s.load_attempts + 1 }
    let r := load_denylist env s1.denylist
    let s2 := { s1 with denylist := r.2 }
    if r.1 = 0 then
      ({ s2 with denylist_loaded := true, lsm_active := true }, [Event.load_call])
    else if s2.load_attempts < MAX_LOAD_ATTEMPTS then
      (s2, [Event.load_call, Event.schedule_retry 10])
    else
      (s2, [Event.load_call])
  else
    (s, [])

/-! ## LSM hook (`safex_file_open`) -/

/-- What one call of the hook meets: whether `__get_free_page` returns a page,
and what `dentry_path_raw` returns (an error pointer, or the memory at the
returned `char *`, a NUL-terminated string). -/
structure HookEnv where
  page_ok : Bool
  render : Except Errno (List Byte)

/-- The function `static int safex_file_open(struct file *file)`. -/
def safex_file_open (s : State) (env : HookEnv) : Int :=
  if !s.lsm_active then 0
  else if !env.page_ok then 0
  else
    match env.render with
    | .ok path => if is_path_denied s path then -EACCES else 0
    | .error _ => 0

/-! ## Executions -/

/-- What can happen to the module after init: the delayed work runs, or the
host calls the hook. -/
inductive Action where
  | timer (env : LoadEnv)
  | hook (env : HookEnv)

/-- The state after one action.  The hook writes no global. -/
def step (s : State) : Action → State
  | .timer env => (activate_lsm_work s env).1
  | .hook _ => s

/-- The effects of one action. -/
def step_events (s : State) : Action → List Event
  | .timer env => (activate_lsm_work s env).2
  | .hook _ => []

/-- The state after a sequence of actions. -/
def run : State → List Action → State
  | s, [] => s
  | s, a :: rest => run (step s a) rest

/-- The effects of a sequence of actions, in order. -/
def run_events : State → List Action → List Event
  | _, [] => []
  | s, a :: rest => step_events s a ++ run_events (step s a) rest

/-- A state the module can be in: reached from the initial state. -/
def Reachable (s : State) : Prop := ∃ acts, run init_state acts = s

/-- Number of `load_denylist` calls among the effects. -/
def load_calls (evs : List Event) : Nat := evs.count Event.load_call

/-- Number of steps of an execution at which `lsm_active` goes from false to true. -/
def activations : State → List Action → Nat
  | _, [] => 0
  | s, a :: rest =>
    (if s.lsm_active = false ∧ (step s a).lsm_active = true then 1 else 0)
      + activations (step s a) rest

/-- Number of steps of an execution at which `lsm_active` goes from true to false. -/
def deactivations : State → List Action → Nat
  | _, [] => 0
  | s, a :: rest =>
    (if s.lsm_active = true ∧ (step s a).lsm_active = false then 1 else 0)
      + deactivations (step s a) rest

/-- The data-model invariant of the activation state. -/
def Inv (s : State) : Prop :=
  (s.lsm_active = true → s.denylist_loaded = true) ∧
  0 ≤ s.load_attempts ∧ s.load_attempts ≤ MAX_LOAD_ATTEMPTS

/-! ## Sample inputs -/

/-- The bytes of "/etc/shadow". -/
def shadow : List Byte := [47, 101, 116, 99, 47, 115, 104, 97, 100, 111, 119]

/-- A denylist file that cannot be opened (`-ENOENT`). -/
def env_absent : LoadEnv :=
  { filp_open := .error 1, kmalloc_ok := fun _ => true, stack := fun _ => 0 }

/-- A readable denylist file with the given content, every allocation succeeding. -/
def env_file (content : List Byte) : LoadEnv :=
  { filp_open := .ok { data := content, last_ret := 0 },
    kmalloc_ok := fun _ => true, stack := fun _ => 0 }

/-- A hook call whose page allocation and rendering succeed with the given string. -/
def hook_path (p : List Byte) : HookEnv :=
  { page_ok := true, render := .ok (p ++ [0]) }

/-- The state after one timer fire that loads a file holding the line "/etc/shadow". -/
def st_shadow : State := run init_state [Action.timer (env_file (shadow ++ [NL]))]

/-- An inactive state whose list nevertheless holds an entry "/etc/shadow". -/
def st_inactive_listed : State :=
  { denylist := [{ path := shadow ++ [0] }], denylist_loaded := false,
    lsm_active := false, load_attempts := 0 }

/-- The denylist file a writer produces from a list of lines: each line
followed by a newline. -/
def file_of_lines : List (List Byte) → List Byte
  | [] => []
  | l :: rest => l ++ [NL] ++ file_of_lines rest

/-- The content `strncpy` leaves in a `path` field for a line without NUL:
the line, then NUL up to `MAX_PATH_LEN` bytes. -/
def padded (l : List Byte) : List Byte := l ++ List.replicate (MAX_PATH_LEN - l.length) 0

/-- A readable file whose reads end with the given return value. -/
def env_read_error (content : List Byte) (ret : Int) : LoadEnv :=
  { filp_open := .ok { data := content, last_ret := ret },
    kmalloc_ok := fun _ => true, stack := fun _ => 0 }

/-- The state after twelve timer fires that all find the file absent. -/
def st_dead : State := run init_state (List.replicate 12 (Action.timer env_absent))

/-- The state after two timer fires that find the file absent. -/
def st_two_failures : State :=
  run init_state [Action.timer env_absent, Action.timer env_absent]

/-- The number of bytes `strcmp` reads from each of its two strings: one per
turn of its loop. -/
def strcmp_reads : List Byte → List Byte → Nat
  | [], [] => 1
  | [], _ :: _ => 1
  | _ :: _, [] => 1
  | c1 :: cs, c2 :: ct =>
    if c1 ≠ c2 then 1
    else if c1 = 0 then 1
    else 1 + strcmp_reads cs ct

/-- The content of a file up to and including its last newline (empty when
there is none). -/
def upto_last_newline (c : List Byte) : List Byte :=
  (c.reverse.dropWhile (fun b => b ≠ NL)).reverse

/-- The bytes of a file after its last newline (all of it when there is none). -/
def after_last_newline (c : List Byte) : List Byte :=
  (c.reverse.takeWhile (fun b => b ≠ NL)).reverse

/-- A readable file with the given content, initial stack content and final
read result, every allocation succeeding. -/
def env_ok (stack : Nat → Byte) (content : List Byte) (ret : Int) : LoadEnv :=
  { filp_open := .ok { data := content, last_ret := ret },
    kmalloc_ok := fun _ => true, stack := stack }

/-- A readable file with the given content whose first `kmalloc` fails and
whose later ones succeed. -/
def env_first_alloc_fails (content : List Byte) : LoadEnv :=
  { filp_open := .ok { data := content, last_ret := 0 },
    kmalloc_ok := fun n => decide (0 < n), stack := fun _ => 0 }

/-- The two-line file "/a\n/b\n". -/
def file_a_b : List Byte := [47, 97, NL, 47, 98, NL]

/-- An entry whose `path` field has `MAX_PATH_LEN` bytes and holds a string of
at most `MAX_PATH_LEN - 1` bytes, so that its NUL lies inside the field. -/
def terminated (e : deny_entry) : Prop :=
  e.path.length = MAX_PATH_LEN ∧ (cstr e.path).length ≤ MAX_PATH_LEN - 1

/-- The buffer content at the `strncpy` of one iteration: the byte read into
`buf[len]` and then overwritten by the terminator. -/
def copy_source (st : LoopState) (b : Byte) : Nat → Byte :=
  poke (poke st.buf st.len b) st.len 0

/-- A file with a record that starts with a NUL byte: NUL, "a", newline. -/
def file_nul_record : List Byte := [0, 97, NL]

/-- The byte "a". -/
def byte_a : Byte := 97

/-- A line of 511 bytes "a". -/
def line_511 : List Byte := List.replicate 511 byte_a

/-- A file of 512 bytes "a" and no newline. -/
def file_512 : List Byte := line_511 ++ [byte_a]

/-- A file holding one line of 513 bytes "a" and its newline. -/
def file_line_513 : List Byte := line_511 ++ [byte_a] ++ ([byte_a] ++ [NL])

/-! ## String lemmas -/

theorem cstr_nil : cstr [] = [] := rfl

theorem cstr_cons_zero (m : List Byte) : cstr (0 :: m) = [] := by
  simp [cstr]

theorem cstr_cons_ne (c : Byte) (m : List Byte) (h : c ≠ 0) : cstr (c :: m) = c :: cstr m := by
  simp [cstr, List.takeWhile_cons, h]

/-- The comparison `strcmp` returns 0 exactly when the two strings are equal byte for byte. -/
theorem strcmp_eq_zero_iff (a b : List Byte) : strcmp a b = 0 ↔ cstr a = cstr b := by
  induction a generalizing b with
  | nil =>
    cases b with
    | nil => simp [strcmp]
    | cons c2 ct =>
      by_cases h : c2 = 0
      · subst h; simp [strcmp, cstr_cons_zero, cstr_nil]
      · simp [strcmp, h, cstr_cons_ne, cstr_nil]
  | cons c1 cs ih =>
    cases b with
    | nil =>
      by_cases h : c1 = 0
      · subst h; simp [strcmp, cstr_cons_zero, cstr_nil]
      · simp [strcmp, h, cstr_cons_ne, cstr_nil]
    | cons c2 ct =>
      by_cases h12 : c1 = c2
      · subst h12
        by_cases h : c1 = 0
        · subst h; simp [strcmp, cstr_cons_zero]
        · simp [strcmp, h, cstr_cons_ne, ih]
      · by_cases h1 : c1 = 0
        · subst h1
          have h2 : c2 ≠ 0 := fun h => h12 h.symm
          by_cases hlt : (0 : Byte) < c2 <;> simp [strcmp, h12, hlt, cstr_cons_zero, cstr_cons_ne, h2]
        · by_cases h2 : c2 = 0
          · subst h2
            by_cases hlt : c1 < (0 : Byte) <;> simp [strcmp, h12, hlt, cstr_cons_zero, cstr_cons_ne, h1]
          · by_cases hlt : c1 < c2 <;> simp [strcmp, h12, hlt, cstr_cons_ne, h1, h2]

/-- The scan finds a match exactly when some entry equals the path as a string. -/
theorem denylist_scan_iff (path : List Byte) (l : List deny_entry) :
    denylist_scan path l = true ↔ ∃ e ∈ l, cstr e.path = cstr path := by
  induction l with
  | nil => simp [denylist_scan]
  | cons entry rest ih =>
    by_cases h : strcmp entry.path path = 0
    · have h2 := (strcmp_eq_zero_iff _ _).1 h
      simp [denylist_scan, h, h2]
    · have h2 : ¬ cstr entry.path = cstr path := fun hh => h ((strcmp_eq_zero_iff _ _).2 hh)
      simp [denylist_scan, h, h2, ih]

/-! ## The hook -/

/-- C1: with `lsm_active` true, a page and a rendered path, `safex_file_open`
returns `-EACCES` exactly when the rendered string equals the string of some
denylist entry byte for byte, and returns 0 otherwise. -/
theorem C1_file_open_denies_iff_listed (s : State) (path : List Byte)
    (hactive : s.lsm_active = true) :
    (safex_file_open s { page_ok := true, render := .ok path } = -EACCES
        ↔ ∃ e ∈ s.denylist, cstr e.path = cstr path) ∧
    ((¬ ∃ e ∈ s.denylist, cstr e.path = cstr path) →
        safex_file_open s { page_ok := true, render := .ok path } = 0) := by
  have hscan := denylist_scan_iff path s.denylist
  by_cases hd : denylist_scan path s.denylist = true
  · have hex := hscan.1 hd
    simp [safex_file_open, is_path_denied, hactive, hd, hex]
  · have hex : ¬ ∃ e ∈ s.denylist, cstr e.path = cstr path := fun h => hd (hscan.2 h)
    have hd2 : denylist_scan path s.denylist = false := by simpa using hd
    simp only [safex_file_open, is_path_denied, hactive, hd2]
    simp [hex, EACCES]

/-- Witness of C1: after loading "/etc/shadow", opening "/etc/shadow" is denied
and opening "/etc/shadow " (trailing space) is allowed. -/
theorem C1_file_open_denies_iff_listed_witness :
    st_shadow.lsm_active = true ∧
    safex_file_open st_shadow (hook_path shadow) = -EACCES ∧
    safex_file_open st_shadow (hook_path (shadow ++ [32])) = 0 :=
  ⟨by decide,
   (C1_file_open_denies_iff_listed st_shadow (shadow ++ [0]) (by decide)).1.2
     (by decide),
   (C1_file_open_denies_iff_listed st_shadow (shadow ++ [32] ++ [0]) (by decide)).2 (by decide)⟩

/-- C2: with `lsm_active` false, `safex_file_open` returns 0 and
`is_path_denied` returns false, whatever the denylist holds. -/
theorem C2_inactive_allows (s : State) (env : HookEnv) (path : List Byte)
    (hinactive : s.lsm_active = false) :
    safex_file_open s env = 0 ∧ is_path_denied s path = false := by
  simp [safex_file_open, is_path_denied, hinactive]

/-- Witness of C2: an inactive state whose list holds "/etc/shadow" allows that path. -/
theorem C2_inactive_allows_witness :
    st_inactive_listed.lsm_active = false ∧
    (∃ e ∈ st_inactive_listed.denylist, cstr e.path = shadow) ∧
    safex_file_open st_inactive_listed (hook_path shadow) = 0 ∧
    is_path_denied st_inactive_listed (shadow ++ [0]) = false :=
  ⟨rfl, ⟨{ path := shadow ++ [0] }, by decide, by decide⟩,
   C2_inactive_allows st_inactive_listed (hook_path shadow) (shadow ++ [0]) rfl⟩

/-- C3: fail-open.  With `lsm_active` true, a failed page allocation or a
rendering error makes `safex_file_open` return 0; and a non-zero return value
is `-EACCES`, with `lsm_active` true, a page obtained and a rendered path whose
string equals that of some denylist entry. -/
theorem C3_fail_open (s : State) (env : HookEnv) :
    (s.lsm_active = true →
      (env.page_ok = false ∨ ∃ e, env.render = .error e) → safex_file_open s env = 0) ∧
    (safex_file_open s env ≠ 0 →
      safex_file_open s env = -EACCES ∧ s.lsm_active = true ∧ env.page_ok = true ∧
      ∃ path, env.render = .ok path ∧ ∃ e ∈ s.denylist, cstr e.path = cstr path) := by
  constructor
  · intro hactive herr
    rcases herr with hpage | ⟨e, he⟩
    · simp [safex_file_open, hpage]
    · simp [safex_file_open, he]
  · intro hne
    cases hactive : s.lsm_active with
    | false => simp [safex_file_open, hactive] at hne
    | true =>
      cases hpage : env.page_ok with
      | false => simp [safex_file_open, hpage] at hne
      | true =>
        cases hr : env.render with
        | error e => simp [safex_file_open, hr] at hne
        | ok path =>
          cases hd : denylist_scan path s.denylist with
          | false => simp [safex_file_open, is_path_denied, hactive, hpage, hr, hd] at hne
          | true =>
            refine ⟨?_, rfl, rfl, path, rfl, (denylist_scan_iff path s.denylist).1 hd⟩
            simp [safex_file_open, is_path_denied, hactive, hpage, hr, hd]

/-- Witness of C3: in the active state listing "/etc/shadow", an open of that
path is allowed when no page is available and when rendering fails, and the
denied open is a rendered listed path. -/
theorem C3_fail_open_witness :
    st_shadow.lsm_active = true ∧
    safex_file_open st_shadow { page_ok := false, render := .ok (shadow ++ [0]) } = 0 ∧
    safex_file_open st_shadow { page_ok := true, render := .error 35 } = 0 ∧
    safex_file_open st_shadow (hook_path shadow) ≠ 0 ∧
    (safex_file_open st_shadow (hook_path shadow) = -EACCES ∧ st_shadow.lsm_active = true ∧
      (hook_path shadow).page_ok = true ∧
      ∃ path, (hook_path shadow).render = .ok path ∧
        ∃ e ∈ st_shadow.denylist, cstr e.path = cstr path) :=
  ⟨by decide,
   (C3_fail_open st_shadow { page_ok := false, render := .ok (shadow ++ [0]) }).1
     (by decide) (Or.inl rfl),
   (C3_fail_open st_shadow { page_ok := true, render := .error 35 }).1
     (by decide) (Or.inr ⟨35, rfl⟩),
   by decide,
   (C3_fail_open st_shadow (hook_path shadow)).2 (by decide)⟩

/-! ## Loading -/

theorem cstr_append_zeros (l : List Byte) (n : Nat) (h : (0 : Byte) ∉ l) :
    cstr (l ++ List.replicate n 0) = l := by
  induction l with
  | nil => cases n <;> simp [cstr, List.replicate_succ]
  | cons c cs ih =>
    have hc : c ≠ 0 := fun hc => h (by simp [hc])
    have hcs : (0 : Byte) ∉ cs := fun hcs => h (by simp [hcs])
    simp [cstr_cons_ne, hc, ih hcs]

theorem cstr_padded (l : List Byte) (h : (0 : Byte) ∉ l) : cstr (padded l) = l :=
  cstr_append_zeros l _ h

/-- The copy `strncpy` from a buffer holding the NUL-free bytes `l` followed by a NUL. -/
theorem strncpy_of_line (src : Nat → Byte) (l : List Byte) (i n : Nat)
    (hsrc : ∀ j (h : j < l.length), src (i + j) = l.get ⟨j, h⟩)
    (hnul : (0 : Byte) ∉ l) (hend : src (i + l.length) = 0) (hn : l.length ≤ n) :
    strncpy src i n = l ++ List.replicate (n - l.length) 0 := by
  induction l generalizing i n with
  | nil =>
    cases n with
    | zero => simp [strncpy]
    | succ m =>
      have h0 : src i = 0 := by simpa using hend
      simp [strncpy, h0]
  | cons c cs ih =>
    cases n with
    | zero => simp at hn
    | succ m =>
      have hc : src i = c := by simpa using hsrc 0 (by simp)
      have hc0 : c ≠ 0 := fun hc0 => hnul (by simp [hc0])
      have hcs : (0 : Byte) ∉ cs := fun hcs => hnul (by simp [hcs])
      have hrest := ih (i + 1) m
        (fun j h => by
          have := hsrc (j + 1) (by simp; omega)
          simpa [Nat.add_assoc, Nat.add_comm 1 j] using this)
        hcs (by simpa [Nat.add_assoc, Nat.add_comm 1] using hend) (by simpa using hn)
      simp [strncpy, hc, hc0, hrest]

theorem load_loop_append (k : Nat → Bool) (st : LoopState) (a b : List Byte) :
    load_loop k st (a ++ b) = load_loop k (load_loop k st a) b := by
  induction a generalizing st with
  | nil => rfl
  | cons c cs ih => simp [load_loop, ih]

/-- Reading newline-free bytes that fit below the truncation point only
accumulates them in `buf`. -/
theorem load_loop_accumulate (k : Nat → Bool) (l : List Byte) (st : LoopState)
    (hnl : NL ∉ l) (hfit : st.len + l.length ≤ MAX_PATH_LEN - 1) :
    (load_loop k st l).len = st.len + l.length ∧
    (load_loop k st l).denylist = st.denylist ∧
    (load_loop k st l).allocs = st.allocs ∧
    (∀ j, j < st.len → (load_loop k st l).buf j = st.buf j) ∧
    (∀ j (h : j < l.length), (load_loop k st l).buf (st.len + j) = l.get ⟨j, h⟩) := by
  induction l generalizing st with
  | nil => simp [load_loop]
  | cons c cs ih =>
    have hc : c ≠ NL := fun hc => hnl (by simp [hc])
    have hcs : NL ∉ cs := fun hcs => hnl (by simp [hcs])
    have hlen : st.len ≠ MAX_PATH_LEN - 1 := by
      simp only [List.length_cons] at hfit; omega
    have hiter : load_iter k st c =
        { buf := poke st.buf st.len c, len := st.len + 1, denylist := st.denylist,
          allocs := st.allocs } := by
      simp [load_iter, poke, hc, hlen]
    have h := ih (load_iter k st c) hcs (by
      rw [hiter]; simp only [List.length_cons] at hfit; simp only; omega)
    rw [hiter] at h
    simp only at h
    obtain ⟨h1, h2, h3, h4, h5⟩ := h
    simp only [load_loop, hiter]
    refine ⟨?_, h2, h3, ?_, ?_⟩
    · rw [h1]; simp only [List.length_cons]; omega
    · intro j hj
      rw [h4 j (by omega)]
      simp only [poke]
      rw [if_neg (by omega)]
    · intro j hj
      cases j with
      | zero =>
        show _ = c
        have := h4 st.len (by omega)
        simpa [poke] using this
      | succ i =>
        have := h5 i (by simpa using hj)
        simpa [Nat.add_assoc, Nat.add_comm 1 i] using this

/-- Reading one well-formed line and its newline, with `len = 0` before and
the allocation succeeding, appends exactly the padded line and resets `len`. -/
theorem load_loop_line (k : Nat → Bool) (l : List Byte) (st : LoopState)
    (hlen0 : st.len = 0) (hne : l ≠ []) (hfit : l.length ≤ MAX_PATH_LEN - 1)
    (hnl : NL ∉ l) (hnul : (0 : Byte) ∉ l) (halloc : k st.allocs = true) :
    (load_loop k st (l ++ [NL])).len = 0 ∧
    (load_loop k st (l ++ [NL])).denylist = st.denylist ++ [{ path := padded l }] ∧
    (load_loop k st (l ++ [NL])).allocs = st.allocs + 1 := by
  obtain ⟨h1, h2, h3, _, h5⟩ := load_loop_accumulate k l st hnl (by rw [hlen0]; simpa using hfit)
  rw [hlen0, Nat.zero_add] at h1
  have hpos : 0 < l.length := List.length_pos.2 hne
  have hcopy : strncpy (poke (poke (load_loop k st l).buf l.length NL) l.length 0) 0 MAX_PATH_LEN
      = padded l := by
    have hmax : l.length ≤ MAX_PATH_LEN := by
      have : MAX_PATH_LEN - 1 ≤ MAX_PATH_LEN := Nat.sub_le _ _
      omega
    refine strncpy_of_line _ l 0 MAX_PATH_LEN ?_ hnul (by simp [poke]) hmax
    intro j hj
    have := h5 j hj
    rw [hlen0] at this
    simp only [poke, Nat.zero_add] at this ⊢
    rw [if_neg (by omega), if_neg (by omega)]
    simpa using this
  rw [load_loop_append]
  simp only [load_loop, load_iter, h1, h2, h3, poke, if_true, hpos, gt_iff_lt, true_or, halloc]
  simp only [poke] at hcopy
  simp [hcopy]

/-- Loading a file of well-formed lines appends the padded lines in order. -/
theorem load_loop_lines (k : Nat → Bool) (lines : List (List Byte)) (st : LoopState)
    (hlen0 : st.len = 0) (halloc : ∀ n, k n = true)
    (hlines : ∀ l ∈ lines, l ≠ [] ∧ l.length ≤ MAX_PATH_LEN - 1 ∧ NL ∉ l ∧ (0 : Byte) ∉ l) :
    (load_loop k st (file_of_lines lines)).denylist
      = st.denylist ++ lines.map (fun l => { path := padded l }) := by
  induction lines generalizing st with
  | nil => simp [file_of_lines, load_loop]
  | cons l rest ih =>
    obtain ⟨hne, hfit, hnl, hnul⟩ := hlines l (by simp)
    obtain ⟨h1, h2, _⟩ := load_loop_line k l st hlen0 hne hfit hnl hnul (halloc _)
    simp only [file_of_lines]
    rw [load_loop_append, ih _ h1 (fun l hl => hlines l (by simp [hl])), h2]
    simp

/-- C4: round trip of `load_denylist`.  For lines that are non-empty, at most
`MAX_PATH_LEN - 1` bytes long and free of newline and NUL, loading the file
made of each line followed by a newline into an empty denylist, with every
allocation succeeding, returns 0 and yields entries whose strings are exactly
the lines, in order (each `path` field is the line padded with NUL); the empty
file gives the empty denylist. -/
theorem C4_load_round_trip (lines : List (List Byte)) (env : LoadEnv) (f : OpenFile)
    (hopen : env.filp_open = .ok f) (hdata : f.data = file_of_lines lines)
    (halloc : ∀ n, env.kmalloc_ok n = true)
    (hlines : ∀ l ∈ lines, l ≠ [] ∧ l.length ≤ MAX_PATH_LEN - 1 ∧ NL ∉ l ∧ (0 : Byte) ∉ l) :
    (load_denylist env []).1 = 0 ∧
    (load_denylist env []).2 = lines.map (fun l => { path := padded l }) ∧
    (load_denylist env []).2.map (fun e => cstr e.path) = lines := by
  have h := load_loop_lines env.kmalloc_ok lines
    { buf := env.stack, len := 0, denylist := [], allocs := 0 } rfl halloc hlines
  simp only [List.nil_append] at h
  have hload : load_denylist env [] = (0, lines.map (fun l => { path := padded l })) := by
    simp only [load_denylist, hopen, hdata, h]
  refine ⟨by rw [hload], by rw [hload], ?_⟩
  rw [hload]
  simp only [List.map_map]
  conv => rhs; rw [← List.map_id lines]
  apply List.map_congr_left
  intro l hl
  simpa using cstr_padded l (hlines l hl).2.2.2

/-- Witness of C4: the two-line file "/etc/shadow\n/a\n" loads as those two
entries, and the empty file as the empty denylist. -/
theorem C4_load_round_trip_witness :
    ((load_denylist (env_file (file_of_lines [shadow, [47, 97]])) []).1 = 0 ∧
     (load_denylist (env_file (file_of_lines [shadow, [47, 97]])) []).2
        = [shadow, [47, 97]].map (fun l => { path := padded l }) ∧
     (load_denylist (env_file (file_of_lines [shadow, [47, 97]])) []).2.map
        (fun e => cstr e.path) = [shadow, [47, 97]]) ∧
    (load_denylist (env_file []) []).1 = 0 ∧ (load_denylist (env_file []) []).2 = [] :=
  ⟨C4_load_round_trip [shadow, [47, 97]] (env_file (file_of_lines [shadow, [47, 97]]))
      { data := file_of_lines [shadow, [47, 97]], last_ret := 0 } rfl rfl (fun _ => rfl)
      (by decide),
   (C4_load_round_trip [] (env_file []) { data := [], last_ret := 0 } rfl rfl
      (fun _ => rfl) (by decide)).1,
   (C4_load_round_trip [] (env_file []) { data := [], last_ret := 0 } rfl rfl
      (fun _ => rfl) (by decide)).2.1⟩

theorem PTR_ERR_ne_zero (e : Errno) : PTR_ERR e ≠ 0 := by
  unfold PTR_ERR
  have : (0 : Int) ≤ (e.val : Int) := Int.ofNat_nonneg _
  omega

/-- C5: `load_denylist` fails exactly when the file cannot be opened.  A failed
open returns the non-zero open error and the denylist unchanged; a successful
open returns 0 for every sequence of delivered bytes and every final read
result (end of file or read error), and every allocation pattern. -/
theorem C5_load_fails_iff_open_fails (env : LoadEnv) (denylist : List deny_entry) :
    (∀ e, env.filp_open = .error e →
      load_denylist env denylist = (PTR_ERR e, denylist) ∧ PTR_ERR e ≠ 0) ∧
    (∀ f, env.filp_open = .ok f → (load_denylist env denylist).1 = 0) ∧
    ((load_denylist env denylist).1 ≠ 0 ↔ ∃ e, env.filp_open = .error e) := by
  refine ⟨?_, ?_, ?_⟩
  · intro e he
    exact ⟨by simp [load_denylist, he], PTR_ERR_ne_zero e⟩
  · intro f hf
    simp [load_denylist, hf]
  · cases h : env.filp_open with
    | error e => simpa [load_denylist, h] using PTR_ERR_ne_zero e
    | ok f => simp [load_denylist, h]

/-- Witness of C5: an absent file gives `-ENOENT` (-2) and leaves the list
alone; a file whose reads stop with `-EIO` (-5) after "/a" and a newline still
loads with result 0. -/
theorem C5_load_fails_iff_open_fails_witness :
    (load_denylist env_absent st_inactive_listed.denylist
        = (PTR_ERR 1, st_inactive_listed.denylist) ∧ PTR_ERR 1 ≠ 0) ∧
    PTR_ERR 1 = -2 ∧
    (load_denylist (env_read_error [47, 97, NL] (-5)) []).1 = 0 :=
  ⟨(C5_load_fails_iff_open_fails env_absent st_inactive_listed.denylist).1 1 rfl,
   by decide,
   (C5_load_fails_iff_open_fails (env_read_error [47, 97, NL] (-5)) []).2.1
     { data := [47, 97, NL], last_ret := -5 } rfl⟩

/-! ## Activation -/

theorem activate_loaded (s : State) (env : LoadEnv) (h : s.denylist_loaded = true) :
    activate_lsm_work s env = (s, []) := by
  simp [activate_lsm_work, h]

theorem activate_exhausted (s : State) (env : LoadEnv)
    (h : ¬ s.load_attempts < MAX_LOAD_ATTEMPTS) : activate_lsm_work s env = (s, []) := by
  simp [activate_lsm_work, h]

theorem activate_pending_ok (s : State) (env : LoadEnv) (hl : s.denylist_loaded = false)
    (ha : s.load_attempts < MAX_LOAD_ATTEMPTS) (hr : (load_denylist env s.denylist).1 = 0) :
    activate_lsm_work s env =
      ({ denylist := (load_denylist env s.denylist).2, denylist_loaded := true,
         lsm_active := true, load_attempts := s.load_attempts + 1 }, [Event.load_call]) := by
  simp [activate_lsm_work, hl, ha, hr]

theorem activate_pending_fail (s : State) (env : LoadEnv) (hl : s.denylist_loaded = false)
    (ha : s.load_attempts < MAX_LOAD_ATTEMPTS) (hr : (load_denylist env s.denylist).1 ≠ 0) :
    activate_lsm_work s env =
      ({ denylist := (load_denylist env s.denylist).2, denylist_loaded := false,
         lsm_active := s.lsm_active, load_attempts := s.load_attempts + 1 },
       if s.load_attempts + 1 < MAX_LOAD_ATTEMPTS
         then [Event.load_call, Event.schedule_retry 10] else [Event.load_call]) := by
  by_cases h : s.load_attempts + 1 < MAX_LOAD_ATTEMPTS
  · simp [activate_lsm_work, hl, ha, hr, h]
  · simp [activate_lsm_work, hl, ha, hr, h]

/-- The four ways one run of the deferred work can go. -/
theorem activate_cases (s : State) (env : LoadEnv) :
    activate_lsm_work s env = (s, []) ∨
    (s.denylist_loaded = false ∧ s.load_attempts < MAX_LOAD_ATTEMPTS ∧
      ((activate_lsm_work s env).1 =
          { denylist := (load_denylist env s.denylist).2, denylist_loaded := true,
            lsm_active := true, load_attempts := s.load_attempts + 1 } ∨
       (activate_lsm_work s env).1 =
          { denylist := (load_denylist env s.denylist).2, denylist_loaded := false,
            lsm_active := s.lsm_active, load_attempts := s.load_attempts + 1 }) ∧
      load_calls (activate_lsm_work s env).2 = 1) := by
  cases hl : s.denylist_loaded with
  | true => exact Or.inl (activate_loaded s env hl)
  | false =>
    by_cases ha : s.load_attempts < MAX_LOAD_ATTEMPTS
    · right
      refine ⟨rfl, ha, ?_⟩
      by_cases hr : (load_denylist env s.denylist).1 = 0
      · rw [activate_pending_ok s env hl ha hr]
        exact ⟨Or.inl rfl, by simp [load_calls]⟩
      · rw [activate_pending_fail s env hl ha hr]
        refine ⟨Or.inr rfl, ?_⟩
        by_cases h : s.load_attempts + 1 < MAX_LOAD_ATTEMPTS <;> simp [load_calls, h]
    · exact Or.inl (activate_exhausted s env ha)

theorem step_inv (s : State) (a : Action) (h : Inv s) : Inv (step s a) := by
  cases a with
  | hook env => exact h
  | timer env =>
    obtain ⟨h1, h2, h3⟩ := h
    rcases activate_cases s env with hc | ⟨hl, ha, hc | hc, _⟩
    · simp only [step, hc]; exact ⟨h1, h2, h3⟩
    · simp only [step, hc]
      exact ⟨fun _ => rfl, by show 0 ≤ s.load_attempts + 1; omega,
        by show s.load_attempts + 1 ≤ MAX_LOAD_ATTEMPTS; omega⟩
    · simp only [step, hc]
      refine ⟨fun hact => ?_, by show 0 ≤ s.load_attempts + 1; omega,
        by show s.load_attempts + 1 ≤ MAX_LOAD_ATTEMPTS; omega⟩
      rw [h1 hact] at hl
      exact absurd hl (by decide)

theorem run_inv (s : State) (acts : List Action) (h : Inv s) : Inv (run s acts) := by
  induction acts generalizing s with
  | nil => exact h
  | cons a rest ih => exact ih _ (step_inv s a h)

theorem init_inv : Inv init_state := by
  refine ⟨fun h => ?_, by decide, by decide⟩
  exact absurd h (by decide)

theorem reachable_inv (s : State) (h : Reachable s) : Inv s := by
  obtain ⟨acts, rfl⟩ := h
  exact run_inv _ _ init_inv

theorem run_append (s : State) (a b : List Action) : run s (a ++ b) = run (run s a) b := by
  induction a generalizing s with
  | nil => rfl
  | cons x xs ih => simp [run, ih]

/-- Each step adds to `load_attempts` exactly the number of loads it makes. -/
theorem step_attempts (s : State) (a : Action) :
    (step s a).load_attempts = s.load_attempts + (load_calls (step_events s a) : Int) := by
  cases a with
  | hook env => simp [step, step_events, load_calls]
  | timer env =>
    rcases activate_cases s env with hc | ⟨_, _, hc | hc, hn⟩
    · simp [step, step_events, hc, load_calls]
    · simp only [step, step_events, hc, hn]; simp
    · simp only [step, step_events, hc, hn]; simp

theorem run_attempts (s : State) (acts : List Action) :
    (run s acts).load_attempts = s.load_attempts + (load_calls (run_events s acts) : Int) := by
  induction acts generalizing s with
  | nil => simp [run, run_events, load_calls]
  | cons a rest ih =>
    simp only [run, run_events, ih, step_attempts]
    simp only [load_calls, List.count_append]
    push_cast
    omega

/-- C6: in every state reached from the initial state by timer fires (with
arbitrary load outcomes) and hook invocations, `lsm_active` implies
`denylist_loaded`. -/
theorem C6_active_implies_loaded (acts : List Action) :
    (run init_state acts).lsm_active = true → (run init_state acts).denylist_loaded = true :=
  (run_inv init_state acts init_inv).1

/-- Witness of C6: after a failed and then a successful load both flags are set. -/
theorem C6_active_implies_loaded_witness :
    (run init_state [Action.timer env_absent, Action.hook (hook_path shadow),
        Action.timer (env_file (shadow ++ [NL]))]).lsm_active = true ∧
    (run init_state [Action.timer env_absent, Action.hook (hook_path shadow),
        Action.timer (env_file (shadow ++ [NL]))]).denylist_loaded = true :=
  ⟨by decide,
   C6_active_implies_loaded [Action.timer env_absent, Action.hook (hook_path shadow),
        Action.timer (env_file (shadow ++ [NL]))] (by decide)⟩

/-- C7: along every execution from the initial state (timer fires with
arbitrary load outcomes, hook calls in between allowed), `load_denylist` is
called at most `MAX_LOAD_ATTEMPTS` = 12 times, `load_attempts` equals the
number of calls made, stays within 0..12, and does not decrease when the
execution is continued. -/
theorem C7_load_attempts_bounded (acts more : List Action) :
    (load_calls (run_events init_state acts) : Int) ≤ MAX_LOAD_ATTEMPTS ∧
    load_calls (run_events init_state acts) ≤ 12 ∧
    (run init_state acts).load_attempts = (load_calls (run_events init_state acts) : Int) ∧
    0 ≤ (run init_state acts).load_attempts ∧
    (run init_state acts).load_attempts ≤ 12 ∧
    (run init_state acts).load_attempts ≤ (run init_state (acts ++ more)).load_attempts := by
  have hinv := run_inv init_state acts init_inv
  have hcount := run_attempts init_state acts
  have hmore := run_attempts (run init_state acts) more
  obtain ⟨_, h0, h12⟩ := hinv
  have hinit : init_state.load_attempts = 0 := rfl
  rw [hinit] at hcount
  simp only [MAX_LOAD_ATTEMPTS] at h12 ⊢
  rw [run_append]
  refine ⟨by omega, by omega, by omega, h0, h12, by omega⟩

/-- In a state that satisfies the invariant and is active, a step changes nothing. -/
theorem step_frozen (s : State) (a : Action) (hinv : Inv s) (hact : s.lsm_active = true) :
    step s a = s ∧ step_events s a = [] := by
  cases a with
  | hook env => exact ⟨rfl, rfl⟩
  | timer env =>
    have h := activate_loaded s env (hinv.1 hact)
    simp [step, step_events, h]

theorem run_frozen (s : State) (acts : List Action) (hinv : Inv s)
    (hact : s.lsm_active = true) : run s acts = s ∧ run_events s acts = [] := by
  induction acts with
  | nil => exact ⟨rfl, rfl⟩
  | cons a rest ih =>
    obtain ⟨h1, h2⟩ := step_frozen s a hinv hact
    simp only [run, run_events, h1, h2, ih.1, ih.2, List.nil_append, and_self]

/-- No step clears `lsm_active`, in any state. -/
theorem step_stays_active (s : State) (a : Action) (hact : s.lsm_active = true) :
    (step s a).lsm_active = true := by
  cases a with
  | hook env => exact hact
  | timer env =>
    rcases activate_cases s env with hc | ⟨_, _, hc | hc, _⟩
    · simp only [step, hc, hact]
    · simp only [step, hc]
    · simp only [step, hc, hact]

theorem deactivations_zero (s : State) (acts : List Action) : deactivations s acts = 0 := by
  induction acts generalizing s with
  | nil => rfl
  | cons a rest ih =>
    simp only [deactivations, ih, Nat.add_zero]
    by_cases hact : s.lsm_active = true
    · simp [step_stays_active s a hact]
    · simp [hact]

theorem activations_le_one (s : State) (acts : List Action) :
    activations s acts ≤ 1 ∧ (s.lsm_active = true → activations s acts = 0) := by
  induction acts generalizing s with
  | nil => simp [activations]
  | cons a rest ih =>
    obtain ⟨hle, hzero⟩ := ih (step s a)
    by_cases hact : s.lsm_active = true
    · have hnext := hzero (step_stays_active s a hact)
      simp [activations, hact, hnext]
    · by_cases hstep : (step s a).lsm_active = true
      · simp [activations, hact, hstep, hzero hstep]
      · have hif : (if s.lsm_active = false ∧ (step s a).lsm_active = true then 1 else 0) = 0 :=
          if_neg (fun h => hstep h.2)
        simp only [activations, hif, Nat.zero_add]
        exact ⟨hle, fun h => absurd h hact⟩

/-- C8: frozen after activation.  In every state of the module (reached from
the initial state) in which `lsm_active` is true, every timer fire and every
hook invocation leaves `lsm_active` true and the denylist exactly as it was and
calls no load, for one step and for any number of steps; along any execution
`lsm_active` goes from false to true at most once and never from true to
false. -/
theorem C8_frozen_after_activation (s : State) (hreach : Reachable s)
    (hactive : s.lsm_active = true) :
    (∀ a, (step s a).lsm_active = true ∧ (step s a).denylist = s.denylist ∧
        load_calls (step_events s a) = 0) ∧
    (∀ acts, (run s acts).lsm_active = true ∧ (run s acts).denylist = s.denylist ∧
        load_calls (run_events s acts) = 0) ∧
    (∀ s0 acts, activations s0 acts ≤ 1 ∧ deactivations s0 acts = 0) := by
  have hinv := reachable_inv s hreach
  refine ⟨fun a => ?_, fun acts => ?_, fun s0 acts => ?_⟩
  · obtain ⟨h1, h2⟩ := step_frozen s a hinv hactive
    rw [h1, h2]
    exact ⟨hactive, rfl, rfl⟩
  · obtain ⟨h1, h2⟩ := run_frozen s acts hinv hactive
    rw [h1, h2]
    exact ⟨hactive, rfl, rfl⟩
  · exact ⟨(activations_le_one s0 acts).1, deactivations_zero s0 acts⟩

/-- Witness of C8: once "/etc/shadow" has been loaded, a timer fire that would
read a file listing "/a" leaves the one-entry denylist in place. -/
theorem C8_frozen_after_activation_witness :
    Reachable st_shadow ∧ st_shadow.lsm_active = true ∧
    (step st_shadow (Action.timer (env_file [47, 97, NL]))).lsm_active = true ∧
    (step st_shadow (Action.timer (env_file [47, 97, NL]))).denylist = st_shadow.denylist ∧
    load_calls (step_events st_shadow (Action.timer (env_file [47, 97, NL]))) = 0 ∧
    st_shadow.denylist.map (fun e => cstr e.path) = [shadow] :=
  ⟨⟨_, rfl⟩, by decide,
   ((C8_frozen_after_activation st_shadow ⟨_, rfl⟩ (by decide)).1
      (Action.timer (env_file [47, 97, NL]))).1,
   ((C8_frozen_after_activation st_shadow ⟨_, rfl⟩ (by decide)).1
      (Action.timer (env_file [47, 97, NL]))).2.1,
   ((C8_frozen_after_activation st_shadow ⟨_, rfl⟩ (by decide)).1
      (Action.timer (env_file [47, 97, NL]))).2.2,
   by decide⟩

/-- C9: permanent inactivity after the retry budget.  In every state of the
module with `load_attempts = MAX_LOAD_ATTEMPTS` and `denylist_loaded` false, a
timer fire calls no load, schedules no retry and leaves the state unchanged,
whatever the file has become; any further execution leaves the state unchanged
with no effect, `lsm_active` is false, and `safex_file_open` returns 0 for
every hook input from then on. -/
theorem C9_dead_is_permanent (s : State) (hreach : Reachable s)
    (hbudget : s.load_attempts = MAX_LOAD_ATTEMPTS) (hnot : s.denylist_loaded = false) :
    (∀ env, activate_lsm_work s env = (s, [])) ∧
    (∀ acts, run s acts = s ∧ run_events s acts = []) ∧
    s.lsm_active = false ∧
    (∀ acts, (run s acts).lsm_active = false) ∧
    (∀ acts env, safex_file_open (run s acts) env = 0) := by
  have hinv := reachable_inv s hreach
  have hnoop : ∀ env, activate_lsm_work s env = (s, []) := fun env =>
    activate_exhausted s env (by rw [hbudget]; exact lt_irrefl _)
  have hrun : ∀ acts, run s acts = s ∧ run_events s acts = [] := by
    intro acts
    induction acts with
    | nil => exact ⟨rfl, rfl⟩
    | cons a rest ih =>
      cases a with
      | hook env => simpa only [run, run_events, step, step_events, List.nil_append] using ih
      | timer env =>
        simpa only [run, run_events, step, step_events, hnoop env, List.nil_append] using ih
  have hoff : s.lsm_active = false := by
    cases h : s.lsm_active with
    | false => rfl
    | true => rw [hinv.1 h] at hnot; exact absurd hnot (by decide)
  refine ⟨hnoop, hrun, hoff, fun acts => ?_, fun acts env => ?_⟩
  · rw [(hrun acts).1]; exact hoff
  · rw [(hrun acts).1]; simp [safex_file_open, hoff]

/-- Witness of C9: after twelve failed loads, a timer fire that finds a file
listing "/etc/shadow" changes nothing, and "/etc/shadow" can be opened. -/
theorem C9_dead_is_permanent_witness :
    Reachable st_dead ∧ st_dead.load_attempts = MAX_LOAD_ATTEMPTS ∧
    st_dead.denylist_loaded = false ∧
    activate_lsm_work st_dead (env_file (shadow ++ [NL])) = (st_dead, []) ∧
    safex_file_open (run st_dead [Action.timer (env_file (shadow ++ [NL]))])
      (hook_path shadow) = 0 :=
  ⟨⟨_, rfl⟩, by decide, by decide,
   (C9_dead_is_permanent st_dead ⟨_, rfl⟩ (by decide) (by decide)).1
      (env_file (shadow ++ [NL])),
   (C9_dead_is_permanent st_dead ⟨_, rfl⟩ (by decide) (by decide)).2.2.2.2
      [Action.timer (env_file (shadow ++ [NL]))] (hook_path shadow)⟩

/-- C10: one timer fire from a pending state of the module (`denylist_loaded`
false, `load_attempts < 12`) adds exactly one to `load_attempts`, calls
`load_denylist` exactly once (on the current denylist), and then: if the load
returns 0, both flags are true and no retry is scheduled; if it fails and the
new `load_attempts` is below 12, both flags are false and exactly one retry is
scheduled, 10 seconds (`10 * HZ`) later; if it fails and the new
`load_attempts` is 12, both flags are false and no retry is scheduled. -/
theorem C10_timer_fire_from_pending (s : State) (env : LoadEnv) (hreach : Reachable s)
    (hnot : s.denylist_loaded = false) (hbudget : s.load_attempts < MAX_LOAD_ATTEMPTS) :
    (activate_lsm_work s env).1.load_attempts = s.load_attempts + 1 ∧
    load_calls (activate_lsm_work s env).2 = 1 ∧
    (activate_lsm_work s env).1.denylist = (load_denylist env s.denylist).2 ∧
    ((load_denylist env s.denylist).1 = 0 →
      (activate_lsm_work s env).1.denylist_loaded = true ∧
      (activate_lsm_work s env).1.lsm_active = true ∧
      (activate_lsm_work s env).2 = [Event.load_call]) ∧
    ((load_denylist env s.denylist).1 ≠ 0 → s.load_attempts + 1 < MAX_LOAD_ATTEMPTS →
      (activate_lsm_work s env).1.denylist_loaded = false ∧
      (activate_lsm_work s env).1.lsm_active = false ∧
      (activate_lsm_work s env).2 = [Event.load_call, Event.schedule_retry 10]) ∧
    ((load_denylist env s.denylist).1 ≠ 0 → s.load_attempts + 1 = MAX_LOAD_ATTEMPTS →
      (activate_lsm_work s env).1.denylist_loaded = false ∧
      (activate_lsm_work s env).1.lsm_active = false ∧
      (activate_lsm_work s env).2 = [Event.load_call]) := by
  have hinv := reachable_inv s hreach
  have hoff : s.lsm_active = false := by
    cases h : s.lsm_active with
    | false => rfl
    | true => rw [hinv.1 h] at hnot; exact absurd hnot (by decide)
  by_cases hr : (load_denylist env s.denylist).1 = 0
  · rw [activate_pending_ok s env hnot hbudget hr]
    refine ⟨rfl, by simp [load_calls], rfl, fun _ => ⟨rfl, rfl, rfl⟩,
      fun h => absurd hr h, fun h => absurd hr h⟩
  · rw [activate_pending_fail s env hnot hbudget hr]
    refine ⟨rfl, ?_, rfl, fun h => absurd h hr, fun _ hlt => ?_, fun _ heq => ?_⟩
    · by_cases h : s.load_attempts + 1 < MAX_LOAD_ATTEMPTS <;> simp [load_calls, h]
    · exact ⟨rfl, hoff, by simp [hlt]⟩
    · exact ⟨rfl, hoff, by simp [heq]⟩

/-- Witness of C10: load outcomes fail, fail, success.  The third timer fire
activates with `load_attempts = 3`, and an open of the listed "/etc/shadow" is
then denied; the second failure had scheduled a retry. -/
theorem C10_timer_fire_from_pending_witness :
    Reachable st_two_failures ∧ st_two_failures.denylist_loaded = false ∧
    st_two_failures.load_attempts < MAX_LOAD_ATTEMPTS ∧
    (activate_lsm_work st_two_failures (env_file (shadow ++ [NL]))).1.load_attempts
      = st_two_failures.load_attempts + 1 ∧
    (activate_lsm_work st_two_failures (env_file (shadow ++ [NL]))).1.load_attempts = 3 ∧
    (activate_lsm_work st_two_failures (env_file (shadow ++ [NL]))).1.lsm_active = true ∧
    (activate_lsm_work st_two_failures (env_file (shadow ++ [NL]))).2 = [Event.load_call] ∧
    safex_file_open (activate_lsm_work st_two_failures (env_file (shadow ++ [NL]))).1
      (hook_path shadow) = -EACCES ∧
    (activate_lsm_work (run init_state [Action.timer env_absent]) env_absent).2
      = [Event.load_call, Event.schedule_retry 10] :=
  ⟨⟨_, rfl⟩, by decide, by decide,
   (C10_timer_fire_from_pending st_two_failures (env_file (shadow ++ [NL])) ⟨_, rfl⟩
      (by decide) (by decide)).1,
   by decide,
   ((C10_timer_fire_from_pending st_two_failures (env_file (shadow ++ [NL])) ⟨_, rfl⟩
      (by decide) (by decide)).2.2.2.1 (by decide)).2.1,
   ((C10_timer_fire_from_pending st_two_failures (env_file (shadow ++ [NL])) ⟨_, rfl⟩
      (by decide) (by decide)).2.2.2.1 (by decide)).2.2,
   by decide,
   ((C10_timer_fire_from_pending (run init_state [Action.timer env_absent]) env_absent
      ⟨_, rfl⟩ (by decide) (by decide)).2.2.2.2.1 (by decide) (by decide)).2.2⟩

/-! ## Bounds of the read loop -/

theorem load_iter_len_le (k : Nat → Bool) (st : LoopState) (b : Byte)
    (h : st.len ≤ MAX_PATH_LEN - 1) : (load_iter k st b).len ≤ MAX_PATH_LEN - 1 := by
  unfold load_iter
  simp only
  split
  · split
    · split
      · exact Nat.zero_le _
      · exact h
    · exact Nat.zero_le _
  · rename_i hc
    have hne : st.len ≠ MAX_PATH_LEN - 1 := fun he => hc (Or.inr he)
    show st.len + 1 ≤ MAX_PATH_LEN - 1
    omega

theorem load_loop_len_le (k : Nat → Bool) (st : LoopState) (content : List Byte)
    (h : st.len ≤ MAX_PATH_LEN - 1) : (load_loop k st content).len ≤ MAX_PATH_LEN - 1 := by
  induction content generalizing st with
  | nil => exact h
  | cons b rest ih => exact ih _ (load_iter_len_le k st b h)

/-- C17: buffer index safety of `load_denylist`.  For every allocation pattern,
initial stack content and file content, after any number of bytes read (`read`,
any initial part of the content) the accumulator length `len` is at most
`MAX_PATH_LEN - 1` = 511, hence below 512: the index `len` of the next
one-byte read into `buf[len]` and of the terminator write `buf[len] = 0` is
inside the buffer; and it is again at most 511 after that iteration. -/
theorem C17_len_within_buffer (kmalloc_ok : Nat → Bool) (stack : Nat → Byte)
    (denylist : List deny_entry) (read : List Byte) (b : Byte) :
    (load_loop kmalloc_ok { buf := stack, len := 0, denylist := denylist, allocs := 0 }
        read).len ≤ MAX_PATH_LEN - 1 ∧
    (load_loop kmalloc_ok { buf := stack, len := 0, denylist := denylist, allocs := 0 }
        read).len < MAX_PATH_LEN ∧
    (load_iter kmalloc_ok
        (load_loop kmalloc_ok { buf := stack, len := 0, denylist := denylist, allocs := 0 }
          read) b).len ≤ MAX_PATH_LEN - 1 := by
  have h := load_loop_len_le kmalloc_ok
    { buf := stack, len := 0, denylist := denylist, allocs := 0 } read (Nat.zero_le _)
  refine ⟨h, ?_, load_iter_len_le _ _ b h⟩
  have : MAX_PATH_LEN = 512 := rfl
  omega

/-! ## Cleanup -/

theorem cleanup_loop_nil (l : List deny_entry) : cleanup_loop l = [] := by
  induction l with
  | nil => rfl
  | cons e rest ih => simpa [cleanup_loop] using ih

/-- C16: `cleanup_denylist` leaves the denylist empty whatever it held, leaves
both flags and `load_attempts` as they were, and is idempotent: applied to a
state whose denylist is empty it returns that state. -/
theorem C16_cleanup_empties (s : State) :
    (cleanup_denylist s).denylist = [] ∧
    (cleanup_denylist s).denylist_loaded = s.denylist_loaded ∧
    (cleanup_denylist s).lsm_active = s.lsm_active ∧
    (cleanup_denylist s).load_attempts = s.load_attempts ∧
    cleanup_denylist { s with denylist := [] } = { s with denylist := [] } ∧
    cleanup_denylist (cleanup_denylist s) = cleanup_denylist s := by
  simp [cleanup_denylist, cleanup_loop_nil]

/-! ## Allocation failure -/

/-- C11 (the code at the failing input): with the file "/a\n/b\n" and the
first `kmalloc` failing, the failure-free load stores "/a" and "/b", and the
load with the failure stores the single entry "/a/b", which is no record of
the file, instead of "/b". -/
theorem C11_alloc_failure_merges_records :
    (load_denylist (env_file file_a_b) []).2.map (fun e => cstr e.path)
      = [[47, 97], [47, 98]] ∧
    (load_denylist (env_first_alloc_fails file_a_b) []).2.map (fun e => cstr e.path)
      = [[47, 97, 47, 98]] := by
  decide

/-! ## Entries are NUL-terminated strings -/

theorem strncpy_length (src : Nat → Byte) (i n : Nat) : (strncpy src i n).length = n := by
  induction n generalizing i with
  | zero => simp [strncpy]
  | succ m ih =>
    by_cases h : src i = 0
    · simp [strncpy, h]
    · simp [strncpy, h, ih]

/-- A NUL at offset `m` of the source bounds the copied string by `m`. -/
theorem cstr_strncpy_le (src : Nat → Byte) (i n m : Nat) (h : src (i + m) = 0) :
    (cstr (strncpy src i n)).length ≤ m := by
  induction n generalizing i m with
  | zero => simp [strncpy, cstr_nil]
  | succ n ih =>
    by_cases h0 : src i = 0
    · simp [strncpy, h0, List.replicate_succ, cstr_cons_zero]
    · cases m with
      | zero => exact absurd (by simpa using h) h0
      | succ m =>
        have hrest := ih (i + 1) m (by simpa [Nat.add_assoc, Nat.add_comm 1 m] using h)
        simp only [strncpy, h0, if_false, cstr_cons_ne _ _ h0, List.length_cons]
        omega

/-- A first byte other than NUL gives a copied string of at least one byte. -/
theorem cstr_strncpy_pos (src : Nat → Byte) (i n : Nat) (h : src i ≠ 0) :
    1 ≤ (cstr (strncpy src i (n + 1))).length := by
  simp only [strncpy, h, if_false, cstr_cons_ne _ _ h, List.length_cons]
  omega

/-- A first byte NUL gives the empty copied string. -/
theorem cstr_strncpy_zero (src : Nat → Byte) (i n : Nat) (h : src i = 0) :
    cstr (strncpy src i (n + 1)) = [] := by
  simp [strncpy, h, List.replicate_succ, cstr_cons_zero]

/-- The byte right after the string of a memory region, when there is one, is NUL. -/
theorem nul_at_cstr_end (m : List Byte) (h : (cstr m).length < m.length) :
    m.get ⟨(cstr m).length, h⟩ = 0 := by
  induction m with
  | nil => simp at h
  | cons c cs ih =>
    by_cases hc : c = 0
    · subst hc
      simp [cstr_cons_zero]
    · have hlen : (cstr (c :: cs)).length = (cstr cs).length + 1 := by
        rw [cstr_cons_ne c cs hc]; rfl
      have h2 : (cstr cs).length < cs.length := by
        rw [hlen] at h; simpa using h
      have := ih h2
      simp only [hlen, List.get_eq_getElem, List.getElem_cons_succ] at this ⊢
      exact this

/-- The comparison reads at most the string of its first argument and the NUL after it. -/
theorem strcmp_reads_le (a b : List Byte) : strcmp_reads a b ≤ (cstr a).length + 1 := by
  induction a generalizing b with
  | nil => cases b <;> simp [strcmp_reads]
  | cons c1 cs ih =>
    cases b with
    | nil => simp [strcmp_reads]
    | cons c2 ct =>
      by_cases h12 : c1 = c2
      · subst h12
        by_cases h0 : c1 = 0
        · simp [strcmp_reads, h0]
        · have := ih ct
          simp only [strcmp_reads, ne_eq, not_true_eq_false, if_false, h0,
            cstr_cons_ne _ _ h0, List.length_cons]
          omega
      · simp [strcmp_reads, h12]

theorem copy_source_nul (st : LoopState) (b : Byte) : copy_source st b st.len = 0 := by
  simp [copy_source, poke]

/-- One iteration either leaves the denylist alone or, with `len > 0`, appends
the copy of the terminated buffer. -/
theorem load_iter_denylist (k : Nat → Bool) (st : LoopState) (b : Byte) :
    (load_iter k st b).denylist = st.denylist ∨
    (0 < st.len ∧ (load_iter k st b).denylist =
      st.denylist ++ [{ path := strncpy (copy_source st b) 0 MAX_PATH_LEN }]) := by
  unfold load_iter
  simp only
  split
  · split
    · split
      · rename_i hpos _
        exact Or.inr ⟨hpos, rfl⟩
      · exact Or.inl rfl
    · exact Or.inl rfl
  · exact Or.inl rfl

theorem copied_entry_terminated (st : LoopState) (b : Byte) (h : st.len ≤ MAX_PATH_LEN - 1) :
    terminated { path := strncpy (copy_source st b) 0 MAX_PATH_LEN } := by
  refine ⟨strncpy_length _ _ _, ?_⟩
  have hle := cstr_strncpy_le (copy_source st b) 0 MAX_PATH_LEN st.len
    (by rw [Nat.zero_add]; exact copy_source_nul st b)
  exact Nat.le_trans hle h

theorem load_loop_terminated (k : Nat → Bool) (st : LoopState) (content : List Byte)
    (h : st.len ≤ MAX_PATH_LEN - 1) :
    ∀ e ∈ (load_loop k st content).denylist, e ∈ st.denylist ∨ terminated e := by
  induction content generalizing st with
  | nil => intro e he; exact Or.inl he
  | cons b rest ih =>
    intro e he
    rcases ih (load_iter k st b) (load_iter_len_le k st b h) e he with h1 | h1
    · rcases load_iter_denylist k st b with h2 | ⟨_, h2⟩
      · rw [h2] at h1; exact Or.inl h1
      · rw [h2] at h1
        rcases List.mem_append.1 h1 with h3 | h3
        · exact Or.inl h3
        · rw [List.mem_singleton.1 h3]
          exact Or.inr (copied_entry_terminated st b h)
    · exact Or.inr h1

theorem load_denylist_terminated (env : LoadEnv) (denylist : List deny_entry) :
    ∀ e ∈ (load_denylist env denylist).2, e ∈ denylist ∨ terminated e := by
  intro e he
  cases hopen : env.filp_open with
  | error err =>
    simp only [load_denylist, hopen] at he
    exact Or.inl he
  | ok f =>
    simp only [load_denylist, hopen] at he
    exact load_loop_terminated env.kmalloc_ok _ f.data (Nat.zero_le _) e he

/-- C18: every entry stored by `load_denylist` is NUL-terminated inside its
`MAX_PATH_LEN` = 512-byte `path` field.  At every iteration, after any bytes
read, `len` is at most 511 and the buffer handed to the bounded copy holds a
NUL at index `len`; an iteration stores nothing or the copy of that buffer.
Every entry of the result that was not there before has a 512-byte path with a
NUL at an index of at most 511, and `strcmp` on it reads at most 512 bytes,
none past the field. -/
theorem C18_entries_nul_terminated (env : LoadEnv) (denylist : List deny_entry)
    (e : deny_entry) (he : e ∈ (load_denylist env denylist).2) :
    (∀ read b,
      (load_loop env.kmalloc_ok
        { buf := env.stack, len := 0, denylist := denylist, allocs := 0 } read).len
          ≤ MAX_PATH_LEN - 1 ∧
      copy_source (load_loop env.kmalloc_ok
        { buf := env.stack, len := 0, denylist := denylist, allocs := 0 } read) b
        (load_loop env.kmalloc_ok
          { buf := env.stack, len := 0, denylist := denylist, allocs := 0 } read).len = 0 ∧
      ((load_iter env.kmalloc_ok (load_loop env.kmalloc_ok
          { buf := env.stack, len := 0, denylist := denylist, allocs := 0 } read) b).denylist
        = (load_loop env.kmalloc_ok
          { buf := env.stack, len := 0, denylist := denylist, allocs := 0 } read).denylist ∨
       (load_iter env.kmalloc_ok (load_loop env.kmalloc_ok
          { buf := env.stack, len := 0, denylist := denylist, allocs := 0 } read) b).denylist
        = (load_loop env.kmalloc_ok
          { buf := env.stack, len := 0, denylist := denylist, allocs := 0 } read).denylist
          ++ [deny_entry.mk (strncpy (copy_source (load_loop env.kmalloc_ok
            { buf := env.stack, len := 0, denylist := denylist, allocs := 0 } read) b)
              0 MAX_PATH_LEN)])) ∧
    (e ∈ denylist ∨
      (e.path.length = MAX_PATH_LEN ∧
       (∃ i, ∃ h : i < e.path.length, i ≤ MAX_PATH_LEN - 1 ∧ e.path.get ⟨i, h⟩ = 0) ∧
       ∀ path, strcmp_reads e.path path ≤ e.path.length)) := by
  refine ⟨fun read b => ⟨load_loop_len_le _ _ read (Nat.zero_le _), copy_source_nul _ b,
    (load_iter_denylist _ _ b).imp id (fun h => h.2)⟩, ?_⟩
  rcases load_denylist_terminated env denylist e he with h | ⟨hlen, hstr⟩
  · exact Or.inl h
  · right
    have hmax : MAX_PATH_LEN = 512 := rfl
    have hlt : (cstr e.path).length < e.path.length := by omega
    refine ⟨hlen, ⟨(cstr e.path).length, hlt, hstr, nul_at_cstr_end e.path hlt⟩, fun path => ?_⟩
    have := strcmp_reads_le e.path path
    omega

set_option maxRecDepth 20000 in
/-- Witness of C18: the entry stored for the line "/etc/shadow". -/
theorem C18_entries_nul_terminated_witness :
    ({ path := padded shadow } : deny_entry) ∈
      (load_denylist (env_file (shadow ++ [NL])) []).2 ∧
    (padded shadow).length = MAX_PATH_LEN ∧
    (∃ i, ∃ h : i < (padded shadow).length,
      i ≤ MAX_PATH_LEN - 1 ∧ (padded shadow).get ⟨i, h⟩ = 0) ∧
    ∀ path, strcmp_reads (padded shadow) path ≤ (padded shadow).length :=
  ⟨by decide,
   ((C18_entries_nul_terminated (env_file (shadow ++ [NL])) [] { path := padded shadow }
      (by decide)).2.resolve_left (by simp)).1,
   ((C18_entries_nul_terminated (env_file (shadow ++ [NL])) [] { path := padded shadow }
      (by decide)).2.resolve_left (by simp)).2.1,
   ((C18_entries_nul_terminated (env_file (shadow ++ [NL])) [] { path := padded shadow }
      (by decide)).2.resolve_left (by simp)).2.2⟩

/-! ## Length of the stored strings -/

theorem copied_entry_nonempty (st : LoopState) (b : Byte) (hpos : 0 < st.len)
    (hfirst : st.buf 0 ≠ 0) :
    1 ≤ (cstr (strncpy (copy_source st b) 0 MAX_PATH_LEN)).length := by
  have hsrc : copy_source st b 0 ≠ 0 := by
    have hne : ¬ (0 = st.len) := by omega
    simpa [copy_source, poke, hne] using hfirst
  have hmax : MAX_PATH_LEN = 511 + 1 := rfl
  rw [hmax]
  exact cstr_strncpy_pos _ 0 511 hsrc

/-- Reading a byte other than NUL keeps the first byte of a non-empty
accumulator other than NUL. -/
theorem load_iter_first_byte (k : Nat → Bool) (st : LoopState) (b : Byte) (hb : b ≠ 0)
    (h : 0 < st.len → st.buf 0 ≠ 0) :
    0 < (load_iter k st b).len → (load_iter k st b).buf 0 ≠ 0 := by
  unfold load_iter
  simp only
  split
  · split
    · split
      · intro hpos; exact absurd hpos (Nat.lt_irrefl 0)
      · rename_i hpos _
        intro _
        have hne : ¬ (0 = st.len) := by omega
        simpa [poke, hne] using h hpos
    · intro hpos; exact absurd hpos (Nat.lt_irrefl 0)
  · intro _
    by_cases h0 : st.len = 0
    · simp [poke, h0, hb]
    · have hne : ¬ (0 = st.len) := fun he => h0 he.symm
      simpa [poke, hne] using h (Nat.pos_of_ne_zero h0)

theorem load_loop_nonempty (k : Nat → Bool) (st : LoopState) (content : List Byte)
    (hnul : (0 : Byte) ∉ content) (h : 0 < st.len → st.buf 0 ≠ 0) :
    ∀ e ∈ (load_loop k st content).denylist,
      e ∈ st.denylist ∨ 1 ≤ (cstr e.path).length := by
  induction content generalizing st with
  | nil => intro e he; exact Or.inl he
  | cons b rest ih =>
    have hb : b ≠ 0 := fun hb => hnul (by simp [hb])
    have hrest : (0 : Byte) ∉ rest := fun hr => hnul (by simp [hr])
    intro e he
    rcases ih (load_iter k st b) hrest (load_iter_first_byte k st b hb h) e he with h1 | h1
    · rcases load_iter_denylist k st b with h2 | ⟨hpos, h2⟩
      · rw [h2] at h1; exact Or.inl h1
      · rw [h2] at h1
        rcases List.mem_append.1 h1 with h3 | h3
        · exact Or.inl h3
        · rw [List.mem_singleton.1 h3]
          exact Or.inr (copied_entry_nonempty st b hpos (h hpos))
    · exact Or.inr h1

/-- C15 (the claim fails): the record made of a NUL byte and "a" has two bytes
before its newline and is stored as an entry whose string has length 0. -/
theorem C15_nul_record_stored_empty :
    (load_denylist (env_file file_nul_record) []).2.map (fun e => (cstr e.path).length)
      = [0] := by
  decide

/-- C15 (amended): for every file content, allocation pattern and stack
content, every entry that `load_denylist` appends holds a string of at most
`MAX_PATH_LEN - 1` = 511 bytes; when the delivered content has no NUL byte the
string has at least 1 byte; and an iteration that meets a terminator with no
byte accumulated (`len = 0`) appends no entry. -/
theorem C15_entry_length_bounds (env : LoadEnv) (denylist : List deny_entry)
    (e : deny_entry) (he : e ∈ (load_denylist env denylist).2) :
    (e ∈ denylist ∨ (cstr e.path).length ≤ MAX_PATH_LEN - 1) ∧
    ((∀ f, env.filp_open = .ok f → (0 : Byte) ∉ f.data) →
      e ∈ denylist ∨
        (1 ≤ (cstr e.path).length ∧ (cstr e.path).length ≤ MAX_PATH_LEN - 1)) ∧
    (∀ k st b, st.len = 0 → (load_iter k st b).denylist = st.denylist) := by
  have hterm := load_denylist_terminated env denylist e he
  refine ⟨hterm.imp id (fun h => h.2), fun hnul => ?_, fun k st b h0 => ?_⟩
  · rcases hterm with h | h
    · exact Or.inl h
    · cases hopen : env.filp_open with
      | error err =>
        simp only [load_denylist, hopen] at he
        exact Or.inl he
      | ok f =>
        simp only [load_denylist, hopen] at he
        have := load_loop_nonempty env.kmalloc_ok
          { buf := env.stack, len := 0, denylist := denylist, allocs := 0 } f.data
          (hnul f hopen) (fun hpos => absurd hpos (Nat.lt_irrefl 0)) e he
        exact this.imp id (fun h1 => ⟨h1, h.2⟩)
  · rcases load_iter_denylist k st b with h | ⟨hpos, _⟩
    · exact h
    · rw [h0] at hpos; exact absurd hpos (Nat.lt_irrefl 0)

set_option maxRecDepth 20000 in
/-- Witness of C15: the entry stored for the line "/etc/shadow" holds a string
of 11 bytes. -/
theorem C15_entry_length_bounds_witness :
    ({ path := padded shadow } : deny_entry) ∈
      (load_denylist (env_file (shadow ++ [NL])) []).2 ∧
    (1 ≤ (cstr (padded shadow)).length ∧ (cstr (padded shadow)).length ≤ MAX_PATH_LEN - 1) ∧
    (cstr (padded shadow)).length = 11 :=
  ⟨by decide,
   ((C15_entry_length_bounds (env_file (shadow ++ [NL])) [] { path := padded shadow }
      (by decide)).2.1
      (fun f hf => by
        have hd : f.data = shadow ++ [NL] := by
          injection hf with hf; rw [← hf]
        rw [hd]; decide)).resolve_left (by simp),
   by decide⟩

/-! ## Truncation -/

theorem load_env_ok (stack : Nat → Byte) (content : List Byte) (ret : Int)
    (denylist : List deny_entry) :
    load_denylist (env_ok stack content ret) denylist =
      (0, (load_loop (fun _ => true)
        { buf := stack, len := 0, denylist := denylist, allocs := 0 } content).denylist) :=
  rfl

/-- Reading a record of NUL-free, newline-free bytes and the byte that ends it
(a newline, or any byte once 511 bytes are accumulated), with `len = 0` before
and the allocation succeeding, appends the padded record and resets `len`. -/
theorem load_loop_record (k : Nat → Bool) (l : List Byte) (st : LoopState) (c : Byte)
    (hlen0 : st.len = 0) (hne : l ≠ []) (hfit : l.length ≤ MAX_PATH_LEN - 1)
    (hnl : NL ∉ l) (hnul : (0 : Byte) ∉ l) (halloc : k st.allocs = true)
    (hterm : c = NL ∨ l.length = MAX_PATH_LEN - 1) :
    (load_loop k st (l ++ [c])).len = 0 ∧
    (load_loop k st (l ++ [c])).denylist = st.denylist ++ [{ path := padded l }] ∧
    (load_loop k st (l ++ [c])).allocs = st.allocs + 1 := by
  obtain ⟨h1, h2, h3, _, h5⟩ := load_loop_accumulate k l st hnl (by rw [hlen0]; simpa using hfit)
  rw [hlen0, Nat.zero_add] at h1
  have hpos : 0 < l.length := List.length_pos.2 hne
  have hmax : l.length ≤ MAX_PATH_LEN := by
    have : MAX_PATH_LEN - 1 ≤ MAX_PATH_LEN := Nat.sub_le _ _
    omega
  have hcopy : strncpy (copy_source (load_loop k st l) c) 0 MAX_PATH_LEN = padded l := by
    refine strncpy_of_line _ l 0 MAX_PATH_LEN ?_ hnul
      (by rw [Nat.zero_add, ← h1]; exact copy_source_nul _ _) hmax
    intro j hj
    have := h5 j hj
    rw [hlen0] at this
    simp only [copy_source, poke, Nat.zero_add, h1] at this ⊢
    rw [if_neg (by omega), if_neg (by omega)]
    simpa using this
  have hcond : poke (load_loop k st l).buf (load_loop k st l).len c (load_loop k st l).len = NL
      ∨ (load_loop k st l).len = MAX_PATH_LEN - 1 := by
    rcases hterm with h | h
    · left; simp [poke, h]
    · right; rw [h1]; exact h
  have hposl : (load_loop k st l).len > 0 := by rw [h1]; exact hpos
  have hk : k (load_loop k st l).allocs = true := by rw [h3]; exact halloc
  unfold copy_source at hcopy
  rw [load_loop_append]
  simp only [load_loop]
  unfold load_iter
  simp only [if_pos hcond, if_pos hposl, hk, halloc, if_true, hcopy, h2, h3, and_self]

/-- The loop only ever appends to the denylist. -/
theorem load_loop_grows (k : Nat → Bool) (st : LoopState) (content : List Byte) :
    ∃ tail, (load_loop k st content).denylist = st.denylist ++ tail := by
  induction content generalizing st with
  | nil => exact ⟨[], by simp [load_loop]⟩
  | cons b rest ih =>
    obtain ⟨tail, ht⟩ := ih (load_iter k st b)
    rcases load_iter_denylist k st b with h | ⟨_, h⟩
    · exact ⟨tail, by simp only [load_loop, ht, h]⟩
    · exact ⟨{ path := strncpy (copy_source st b) 0 MAX_PATH_LEN } :: tail,
        by simp only [load_loop, ht, h, List.append_assoc, List.singleton_append]⟩

/-- With every allocation succeeding, `len` is 0 after a newline has been read. -/
theorem len_zero_after_newline (st : LoopState) (x : List Byte) :
    (load_loop (fun _ => true) st (x ++ [NL])).len = 0 := by
  rw [load_loop_append]
  simp only [load_loop]
  unfold load_iter
  simp only [poke, if_true, true_or]
  split <;> rfl

theorem len_zero_at_line_start (st : LoopState) (p : List Byte) (hlen0 : st.len = 0)
    (hp : p = [] ∨ ∃ q, p = q ++ [NL]) : (load_loop (fun _ => true) st p).len = 0 := by
  rcases hp with h | ⟨q, h⟩
  · rw [h]; exact hlen0
  · rw [h]; exact len_zero_after_newline st q

/-- An overlong line: 511 bytes, a 512th byte, and a remainder of 1 to 511
bytes before the newline are stored as two entries. -/
theorem load_loop_overlong (st : LoopState) (a r : List Byte) (c : Byte)
    (hlen0 : st.len = 0)
    (ha : a.length = MAX_PATH_LEN - 1) (hanl : NL ∉ a) (hanul : (0 : Byte) ∉ a)
    (hr : r ≠ []) (hrfit : r.length ≤ MAX_PATH_LEN - 1) (hrnl : NL ∉ r)
    (hrnul : (0 : Byte) ∉ r) :
    (load_loop (fun _ => true) st (a ++ [c] ++ (r ++ [NL]))).len = 0 ∧
    (load_loop (fun _ => true) st (a ++ [c] ++ (r ++ [NL]))).denylist
      = st.denylist ++ [{ path := padded a }, { path := padded r }] := by
  have hane : a ≠ [] := by
    intro h
    rw [h] at ha
    exact absurd ha (by decide)
  obtain ⟨h1, h2, _⟩ := load_loop_record (fun _ => true) a st c hlen0 hane (Nat.le_of_eq ha)
    hanl hanul rfl (Or.inr ha)
  obtain ⟨h3, h4, _⟩ := load_loop_line (fun _ => true) r _ h1 hr hrfit hrnl hrnul rfl
  rw [load_loop_append]
  refine ⟨h3, ?_⟩
  rw [h4, h2]
  simp

/-- C14: truncation boundary.  A file of exactly `MAX_PATH_LEN` = 512 bytes with
no newline and no NUL, loaded into an empty denylist with the allocation
succeeding, gives result 0 and exactly one entry, whose string is the first
`MAX_PATH_LEN - 1` = 511 bytes of the content. -/
theorem C14_truncation_boundary (env : LoadEnv) (f : OpenFile) (content : List Byte)
    (hopen : env.filp_open = .ok f) (hdata : f.data = content)
    (halloc : env.kmalloc_ok 0 = true)
    (hlen : content.length = MAX_PATH_LEN) (hnl : NL ∉ content)
    (hnul : (0 : Byte) ∉ content) :
    (load_denylist env []).1 = 0 ∧
    (load_denylist env []).2 = [{ path := padded (content.take (MAX_PATH_LEN - 1)) }] ∧
    (load_denylist env []).2.map (fun e => cstr e.path) = [content.take (MAX_PATH_LEN - 1)] := by
  have hmax : MAX_PATH_LEN = 512 := rfl
  have hsplit : content = content.take (MAX_PATH_LEN - 1) ++ content.drop (MAX_PATH_LEN - 1) :=
    (List.take_append_drop _ _).symm
  have hdrop : (content.drop (MAX_PATH_LEN - 1)).length = 1 := by
    rw [List.length_drop]; omega
  obtain ⟨c, hc⟩ := List.length_eq_one.1 hdrop
  have htake : (content.take (MAX_PATH_LEN - 1)).length = MAX_PATH_LEN - 1 := by
    rw [List.length_take]; omega
  have hne : content.take (MAX_PATH_LEN - 1) ≠ [] := by
    intro h
    rw [h] at htake
    exact absurd htake (by decide)
  have hnl2 : NL ∉ content.take (MAX_PATH_LEN - 1) := fun h => hnl (List.mem_of_mem_take h)
  have hnul2 : (0 : Byte) ∉ content.take (MAX_PATH_LEN - 1) :=
    fun h => hnul (List.mem_of_mem_take h)
  obtain ⟨_, h2, _⟩ := load_loop_record env.kmalloc_ok (content.take (MAX_PATH_LEN - 1))
    { buf := env.stack, len := 0, denylist := [], allocs := 0 } c rfl hne
    (Nat.le_of_eq htake) hnl2 hnul2 halloc (Or.inr htake)
  rw [← hc, ← hsplit] at h2
  have hload : load_denylist env [] =
      (0, [{ path := padded (content.take (MAX_PATH_LEN - 1)) }]) := by
    simp only [load_denylist, hopen, hdata, h2, List.nil_append]
  rw [hload]
  refine ⟨rfl, rfl, ?_⟩
  simp only [List.map_cons, List.map_nil, cstr_padded _ hnul2]

set_option maxRecDepth 50000 in
/-- Witness of C14: the file of 512 bytes "a". -/
theorem C14_truncation_boundary_witness :
    (List.replicate 512 byte_a).length = MAX_PATH_LEN ∧
    (load_denylist (env_file (List.replicate 512 byte_a)) []).2.map (fun e => cstr e.path)
      = [(List.replicate 512 byte_a).take (MAX_PATH_LEN - 1)] :=
  ⟨by decide,
   (C14_truncation_boundary (env_file (List.replicate 512 byte_a))
      { data := List.replicate 512 byte_a, last_ret := 0 } (List.replicate 512 byte_a)
      rfl rfl rfl (by decide) (by decide) (by decide)).2.2⟩

/-! ## Overlong lines -/

theorem poke_poke (buf : Nat → Byte) (i : Nat) (x y : Byte) :
    poke (poke buf i x) i y = poke buf i y := by
  funext j
  simp only [poke]
  split <;> rfl

/-- With 511 bytes accumulated the iteration does not depend on the byte read. -/
theorem load_iter_at_limit (k : Nat → Bool) (st : LoopState) (b c : Byte)
    (h : st.len = MAX_PATH_LEN - 1) : load_iter k st b = load_iter k st c := by
  unfold load_iter
  simp only [h, or_true, if_true, poke_poke]

theorem line_511_facts :
    line_511.length = MAX_PATH_LEN - 1 ∧ line_511 ≠ [] ∧ NL ∉ line_511 ∧
    (0 : Byte) ∉ line_511 := by
  have hlen : line_511.length = 511 := by
    unfold line_511
    exact List.length_replicate _ _
  refine ⟨hlen, ?_, ?_, ?_⟩
  · intro h
    rw [h] at hlen
    exact absurd hlen (by decide)
  · intro h
    have := List.eq_of_mem_replicate h
    exact absurd this (by decide)
  · intro h
    have := List.eq_of_mem_replicate h
    exact absurd this (by decide)

/-- C12 (the claim fails): a newline-terminated line of 513 bytes "a" is stored
as two entries, its first 511 bytes and its last byte. -/
theorem C12_overlong_line_two_entries :
    (load_denylist (env_file file_line_513) []).2
      = [{ path := padded line_511 }, { path := padded [byte_a] }] ∧
    (load_denylist (env_file file_line_513) []).2.length = 2 ∧
    (load_denylist (env_file file_line_513) []).2.map (fun e => cstr e.path)
      = [line_511, [byte_a]] := by
  obtain ⟨h1, _, h3, h4⟩ := line_511_facts
  have h := (load_loop_overlong { buf := fun _ => 0, len := 0, denylist := [], allocs := 0 }
    line_511 [byte_a] byte_a rfl h1 h3 h4 (by decide) (by decide) (by decide) (by decide)).2
  have hload : (load_denylist (env_file file_line_513) []).2
      = [{ path := padded line_511 }, { path := padded [byte_a] }] := by
    simpa [load_denylist, env_file, file_line_513] using h
  rw [hload]
  refine ⟨rfl, rfl, ?_⟩
  simp only [List.map_cons, List.map_nil, cstr_padded _ h4]
  rw [cstr_padded [byte_a] (by decide)]

/-- C12 (amended): with every allocation succeeding, for a line that starts the
file or follows a newline and has more than 511 bytes, its first 511 bytes `a`
free of newline and NUL: the load gives the same result as for the file in
which a newline stands in place of the line's 512th byte `c`; the entry with
the string `a` is appended right after the entries of the part before the
line; a remainder `r` of 1 to 511 bytes before the line's newline is stored as
the next entry; and a line of exactly 512 bytes that ends the file adds the
one entry `a`. -/
theorem C12_overlong_line_split (stack : Nat → Byte) (ret : Int)
    (denylist : List deny_entry) (p a rest : List Byte) (c : Byte)
    (hp : p = [] ∨ ∃ q, p = q ++ [NL])
    (ha : a.length = MAX_PATH_LEN - 1) (hanl : NL ∉ a) (hanul : (0 : Byte) ∉ a) :
    load_denylist (env_ok stack (p ++ (a ++ [c] ++ rest)) ret) denylist
      = load_denylist (env_ok stack (p ++ (a ++ [NL] ++ rest)) ret) denylist ∧
    (∃ tail, (load_denylist (env_ok stack (p ++ (a ++ [c] ++ rest)) ret) denylist).2
      = (load_denylist (env_ok stack p ret) denylist).2 ++ { path := padded a } :: tail) ∧
    (∀ r q, rest = r ++ [NL] ++ q → r ≠ [] → r.length ≤ MAX_PATH_LEN - 1 → NL ∉ r →
      (0 : Byte) ∉ r →
      ∃ tail, (load_denylist (env_ok stack (p ++ (a ++ [c] ++ rest)) ret) denylist).2
        = (load_denylist (env_ok stack p ret) denylist).2
            ++ [{ path := padded a }, { path := padded r }] ++ tail) ∧
    (rest = [NL] →
      (load_denylist (env_ok stack (p ++ (a ++ [c] ++ rest)) ret) denylist).2
        = (load_denylist (env_ok stack p ret) denylist).2 ++ [{ path := padded a }]) := by
  have hS := len_zero_at_line_start
    { buf := stack, len := 0, denylist := denylist, allocs := 0 } p rfl hp
  have hane : a ≠ [] := by
    intro h
    rw [h] at ha
    exact absurd ha (by decide)
  have hacc := (load_loop_accumulate (fun _ => true) a _ hanl
    (by rw [hS, Nat.zero_add]; exact Nat.le_of_eq ha)).1
  rw [hS, Nat.zero_add, ha] at hacc
  obtain ⟨h1, h2, _⟩ := load_loop_record (fun _ => true) a _ c hS hane (Nat.le_of_eq ha)
    hanl hanul rfl (Or.inr ha)
  simp only [load_env_ok]
  refine ⟨?_, ?_, ?_, ?_⟩
  · simp only [load_loop_append, load_loop]
    rw [load_iter_at_limit _ _ c NL hacc]
  · obtain ⟨tail, ht⟩ := load_loop_grows (fun _ => true)
      (load_loop (fun _ => true) (load_loop (fun _ => true)
        { buf := stack, len := 0, denylist := denylist, allocs := 0 } p) (a ++ [c])) rest
    refine ⟨tail, ?_⟩
    rw [load_loop_append, load_loop_append, ht, h2]
    simp
  · intro r q hrest hr hrfit hrnl hrnul
    obtain ⟨_, h4⟩ := load_loop_overlong (load_loop (fun _ => true)
      { buf := stack, len := 0, denylist := denylist, allocs := 0 } p) a r c hS ha hanl hanul
      hr hrfit hrnl hrnul
    obtain ⟨tail, ht⟩ := load_loop_grows (fun _ => true)
      (load_loop (fun _ => true) (load_loop (fun _ => true)
        { buf := stack, len := 0, denylist := denylist, allocs := 0 } p)
        (a ++ [c] ++ (r ++ [NL]))) q
    refine ⟨tail, ?_⟩
    have hre : p ++ (a ++ [c] ++ rest) = p ++ ((a ++ [c] ++ (r ++ [NL])) ++ q) := by
      rw [hrest]; simp
    rw [hre, load_loop_append, load_loop_append, ht, h4]
  · intro hrest
    rw [hrest, load_loop_append, load_loop_append]
    simp only [load_loop]
    rcases load_iter_denylist (fun _ => true) (load_loop (fun _ => true) (load_loop
      (fun _ => true) { buf := stack, len := 0, denylist := denylist, allocs := 0 } p)
      (a ++ [c])) NL with h | ⟨hpos, _⟩
    · rw [h, h2]
    · rw [h1] at hpos; exact absurd hpos (Nat.lt_irrefl 0)

/-- Witness of C12: the line of 513 bytes "a" at the start of a file loads like
the two lines of 511 bytes and of 1 byte. -/
theorem C12_overlong_line_split_witness :
    line_511.length = MAX_PATH_LEN - 1 ∧
    load_denylist (env_ok (fun _ => 0) ([] ++ (line_511 ++ [byte_a] ++ [byte_a, NL])) 0) []
      = load_denylist (env_ok (fun _ => 0) ([] ++ (line_511 ++ [NL] ++ [byte_a, NL])) 0) [] :=
  ⟨line_511_facts.1,
   (C12_overlong_line_split (fun _ => 0) 0 [] [] line_511 [byte_a, NL] byte_a (Or.inl rfl)
      line_511_facts.1 line_511_facts.2.2.1 line_511_facts.2.2.2).1⟩

/-! ## The unterminated last line -/

theorem dropWhile_not_newline (l : List Byte) :
    l.dropWhile (fun b => b ≠ NL) = [] ∨ ∃ t, l.dropWhile (fun b => b ≠ NL) = NL :: t := by
  induction l with
  | nil => exact Or.inl rfl
  | cons b t ih =>
    by_cases h : b = NL
    · subst h
      exact Or.inr ⟨t, by simp [List.dropWhile]⟩
    · have hb : decide (b ≠ NL) = true := by simpa using h
      have hstep : (b :: t).dropWhile (fun b => b ≠ NL) = t.dropWhile (fun b => b ≠ NL) := by
        rw [List.dropWhile_cons, if_pos hb]
      rw [hstep]
      exact ih

theorem upto_last_newline_shape (c : List Byte) :
    upto_last_newline c = [] ∨ ∃ q, upto_last_newline c = q ++ [NL] := by
  unfold upto_last_newline
  rcases dropWhile_not_newline c.reverse with h | ⟨t, h⟩
  · exact Or.inl (by rw [h]; rfl)
  · exact Or.inr ⟨t.reverse, by rw [h]; simp⟩

theorem upto_append_after (c : List Byte) :
    upto_last_newline c ++ after_last_newline c = c := by
  unfold upto_last_newline after_last_newline
  rw [← List.reverse_append, List.takeWhile_append_dropWhile, List.reverse_reverse]

theorem after_last_newline_no_newline (c : List Byte) : NL ∉ after_last_newline c := by
  unfold after_last_newline
  intro h
  have h2 := List.mem_takeWhile_imp (List.mem_reverse.1 h)
  simp at h2

theorem upto_last_newline_of_no_newline (c : List Byte) (h : NL ∉ c) :
    upto_last_newline c = [] := by
  unfold upto_last_newline
  rw [List.reverse_eq_nil_iff, List.dropWhile_eq_nil_iff]
  intro x hx
  have hne : x ≠ NL := fun he => h (he ▸ List.mem_reverse.1 hx)
  simpa using hne

/-- C13 (the claim fails): a file of 512 bytes "a" has no newline, so removing
what follows the last newline leaves the empty file, whose load gives the empty
denylist; yet the load of the file itself stores its first 511 bytes. -/
theorem C13_long_tail_is_stored :
    NL ∉ file_512 ∧ upto_last_newline file_512 = [] ∧
    (load_denylist (env_file file_512) []).2 = [{ path := padded line_511 }] ∧
    (load_denylist (env_file (upto_last_newline file_512)) []).2 = [] ∧
    (load_denylist (env_file file_512) []).2
      ≠ (load_denylist (env_file (upto_last_newline file_512)) []).2 := by
  obtain ⟨h1, h2, h3, h4⟩ := line_511_facts
  have hnl : NL ∉ file_512 := by
    unfold file_512
    intro h
    rcases List.mem_append.1 h with h5 | h5
    · exact h3 h5
    · exact absurd (List.mem_singleton.1 h5) (by decide)
  have hupto := upto_last_newline_of_no_newline file_512 hnl
  have h := (load_loop_record (fun _ => true) line_511
    { buf := fun _ => 0, len := 0, denylist := [], allocs := 0 } byte_a rfl h2
    (Nat.le_of_eq h1) h3 h4 rfl (Or.inr h1)).2.1
  have hload : (load_denylist (env_file file_512) []).2 = [{ path := padded line_511 }] := by
    simpa [load_denylist, env_file, file_512] using h
  have hempty : (load_denylist (env_file (upto_last_newline file_512)) []).2 = [] := by
    rw [hupto]; rfl
  refine ⟨hnl, hupto, hload, hempty, ?_⟩
  rw [hload, hempty]
  exact List.cons_ne_nil _ _

/-- C13 (amended): with every allocation succeeding, for every file content
whose part after the last newline (the whole content when it has no newline)
is at most `MAX_PATH_LEN - 1` = 511 bytes long, `load_denylist` gives the same
result as on the content with the bytes after its last newline removed, and
leaves the denylist as it was when the content has no newline at all. -/
theorem C13_short_tail_ignored (stack : Nat → Byte) (ret : Int)
    (denylist : List deny_entry) (c : List Byte)
    (hshort : (after_last_newline c).length ≤ MAX_PATH_LEN - 1) :
    load_denylist (env_ok stack c ret) denylist
      = load_denylist (env_ok stack (upto_last_newline c) ret) denylist ∧
    (NL ∉ c → (load_denylist (env_ok stack c ret) denylist).2 = denylist) := by
  have hS := len_zero_at_line_start
    { buf := stack, len := 0, denylist := denylist, allocs := 0 } (upto_last_newline c) rfl
    (upto_last_newline_shape c)
  have hacc := (load_loop_accumulate (fun _ => true) (after_last_newline c)
    (load_loop (fun _ => true)
      { buf := stack, len := 0, denylist := denylist, allocs := 0 } (upto_last_newline c))
    (after_last_newline_no_newline c) (by rw [hS, Nat.zero_add]; exact hshort)).2.1
  rw [← load_loop_append, upto_append_after] at hacc
  have heq : load_denylist (env_ok stack c ret) denylist
      = load_denylist (env_ok stack (upto_last_newline c) ret) denylist := by
    simp only [load_env_ok, hacc]
  refine ⟨heq, fun hnl => ?_⟩
  rw [heq, upto_last_newline_of_no_newline c hnl]
  rfl

/-- Witness of C13: in "/a\n/b\n/etc/shadow" the unterminated "/etc/shadow" is
ignored. -/
theorem C13_short_tail_ignored_witness :
    (after_last_newline (file_a_b ++ shadow)).length ≤ MAX_PATH_LEN - 1 ∧
    upto_last_newline (file_a_b ++ shadow) = file_a_b ∧
    load_denylist (env_ok (fun _ => 0) (file_a_b ++ shadow) 0) []
      = load_denylist (env_ok (fun _ => 0) (upto_last_newline (file_a_b ++ shadow)) 0) [] :=
  ⟨by decide, by decide,
   (C13_short_tail_ignored (fun _ => 0) 0 [] (file_a_b ++ shadow) (by decide)).1⟩

end Safex
